import Mathlib

/-!
# Verification of the email-verification-code lifecycle

A shallow embedding of the account-authentication backend: the two
database tables (`users`, `email_verification`) become lists of rows, and
each request handler (`registerUser`, `googleSignIn`,
`sendVerificationCode`, `verifyEmail`, `checkEmailAvailability`) becomes a
pure function from inputs, the current time (milliseconds) and a `Store`
to a result and an updated `Store`.

Randomness (`Math.random()`) is modelled by an explicit `rand : Nat`
parameter; clock reads (`new Date()` / `Date.now()` / `getFullYear()`)
become explicit `now` / `year` parameters.  SQL `SELECT ... WHERE` is
`List.filter` in row order, `UPDATE ... WHERE` maps over rows, and
`DELETE ... WHERE` filters out the matching rows; `drizzle`'s
`existingUsers[0]` is the head of the filtered list.
-/

/-- Decimal digits of a natural number, most significant first, no leading
zeros (the digit list of ECMAScript `Number.prototype.toString()` for a
nonnegative integer).  `fuel` only forces termination; any `fuel > n`
gives the true digit list. -/
def decDigitsAux : Nat → Nat → List Nat
  | 0, _ => []
  | fuel + 1, n => if n < 10 then [n] else decDigitsAux fuel (n / 10) ++ [n % 10]

/-- Decimal digit list of `n`, most significant first. -/
def decDigits (n : Nat) : List Nat :=
  decDigitsAux (n + 1) n

/-- Embedding of JavaScript `n.toString()` for a nonnegative integer `n`:
its decimal representation without leading zeros. -/
def decToString (n : Nat) : String :=
  String.mk ((decDigits n).map Nat.digitChar)

/-- Accumulator loop for `jsSplit`: splits a character list at every
occurrence of the separator, keeping empty segments. -/
def jsSplitAux (c : Char) : List Char → List Char → List (List Char)
  | [], acc => [acc.reverse]
  | x :: xs, acc =>
      if x = c then acc.reverse :: jsSplitAux c xs [] else jsSplitAux c xs (x :: acc)

/-- Embedding of JavaScript `s.split(c)` for a single-character separator
`c`: the list of (possibly empty) segments between occurrences of `c`. -/
def jsSplit (c : Char) (s : String) : List String :=
  (jsSplitAux c s.data []).map String.mk

/-- Embedding of a JavaScript template-literal interpolation of a value
that may be `undefined` (an out-of-range index such as `parts[1]`):
`undefined` prints as the string `undefined`. -/
def strOrUndefined (o : Option String) : String :=
  o.getD "undefined"

/-- A row of the `users` table (`usersTable` in the drizzle schema):
serial id, unique email, names, nullable password hash / google id /
phone, verified flag defaulting to false, and timestamps. -/
structure UserRow where
  id : Nat
  email : String
  first_name : String
  last_name : String
  password_hash : Option String
  google_id : Option String
  phone_number : Option String
  is_email_verified : Bool
  created_at : Nat
  updated_at : Nat
  deriving Repr, DecidableEq

/-- A row of the `email_verification` table (`emailVerificationTable`):
serial id, target email, 6-character code string, absolute expiry and
creation timestamps. -/
structure VerificationRow where
  id : Nat
  email : String
  verification_code : String
  expires_at : Nat
  created_at : Nat
  deriving Repr, DecidableEq

/-- The persistent store: both tables in row order plus the next values of
the two serial id sequences. -/
structure Store where
  users : List UserRow
  codes : List VerificationRow
  nextUserId : Nat
  nextCodeId : Nat
  deriving Repr, DecidableEq

/-- The empty database the test suite starts from. -/
def Store.empty : Store :=
  ⟨[], [], 1, 1⟩

/-- The `{ success: boolean; message: string }` result shape returned by
`sendVerificationCode` and `verifyEmail`. -/
structure HandlerResult where
  success : Bool
  message : String
  deriving Repr, DecidableEq

/-- `'This email is already registered and verified. Please sign in
instead.'` — the `AlreadyVerified` outcome of `sendVerificationCode`. -/
def alreadyVerifiedMsg : String :=
  "This email is already registered and verified. Please sign in instead."

/-- `'A verification code was already sent recently. Please check your
email or wait before requesting a new code.'` — the `AlreadyPending`
outcome of `sendVerificationCode`. -/
def alreadyPendingMsg : String :=
  "A verification code was already sent recently. Please check your email or wait before requesting a new code."

/-- `'Verification code sent to your email. Please check your inbox.'` —
the `Issued` outcome of `sendVerificationCode`. -/
def codeSentMsg : String :=
  "Verification code sent to your email. Please check your inbox."

/-- `'Invalid verification code. Please check your email and try
again.'` — the `InvalidCode` outcome of `verifyEmail`. -/
def invalidCodeMsg : String :=
  "Invalid verification code. Please check your email and try again."

/-- `'Verification code has expired. Please request a new code.'` — the
`Expired` outcome of `verifyEmail`. -/
def expiredCodeMsg : String :=
  "Verification code has expired. Please request a new code."

/-- `'User account not found. Please contact support.'` — the
`AccountMissing` outcome of `verifyEmail`. -/
def accountMissingMsg : String :=
  "User account not found. Please contact support."

/-- `'Email successfully verified!'` — the `Verified` outcome of
`verifyEmail`. -/
def emailVerifiedMsg : String :=
  "Email successfully verified!"

/-- `Math.floor(100000 + Math.random() * 900000).toString()`: with
`Math.random()` uniform on `[0, 1)`, `Math.floor(Math.random() * 900000)`
is uniform on `{0, ..., 899999}`; that sample is modelled by
`rand % 900000`. -/
def genCode (rand : Nat) : String :=
  decToString (100000 + rand % 900000)

/-- `sendVerificationCode` (handlers/send_verification_code.ts): reject if
the first user row for the email is verified; delete the email's expired
code rows (`expires_at < now`); reject if a live code row
(`now < expires_at`) remains; otherwise insert a fresh code expiring in 15
minutes (900000 ms). -/
def sendVerificationCode (email : String) (rand now : Nat) (s : Store) :
    HandlerResult × Store :=
  let existingUsers := s.users.filter fun u => decide (u.email = email)
  if (existingUsers.head?.map (·.is_email_verified)).getD false then
    (⟨false, alreadyVerifiedMsg⟩, s)
  else
    let cleaned : Store :=
      { s with codes := s.codes.filter fun r => !decide (r.email = email ∧ r.expires_at < now) }
    let existingCodes := cleaned.codes.filter fun r => decide (r.email = email ∧ now < r.expires_at)
    if existingCodes.length > 0 then
      (⟨false, alreadyPendingMsg⟩, cleaned)
    else
      let newRow : VerificationRow :=
        ⟨s.nextCodeId, email, genCode rand, now + 15 * 60 * 1000, now⟩
      (⟨true, codeSentMsg⟩,
        { cleaned with codes := cleaned.codes ++ [newRow], nextCodeId := s.nextCodeId + 1 })

/-- `verifyEmail` (handlers/verify_email.ts): look up the first code row
matching the email and the exact code string; if none, `InvalidCode`; if
it is expired (`expires_at < now`), delete it and return `Expired`;
otherwise set `is_email_verified` and `updated_at` on every user row with
that email, return `AccountMissing` when the update touched zero rows,
else delete the consumed code row and return `Verified`. -/
def verifyEmail (email code : String) (now : Nat) (s : Store) :
    HandlerResult × Store :=
  match (s.codes.filter fun r => decide (r.email = email ∧ r.verification_code = code)) with
  | [] => (⟨false, invalidCodeMsg⟩, s)
  | rec0 :: _ =>
    if rec0.expires_at < now then
      (⟨false, expiredCodeMsg⟩,
        { s with codes := s.codes.filter fun r => !decide (r.id = rec0.id) })
    else
      let rowCount := (s.users.filter fun u => decide (u.email = email)).length
      let s1 : Store :=
        { s with users := s.users.map fun u =>
            if u.email = email then { u with is_email_verified := true, updated_at := now } else u }
      if rowCount = 0 then
        (⟨false, accountMissingMsg⟩, s1)
      else
        (⟨true, emailVerifiedMsg⟩,
          { s1 with codes := s1.codes.filter fun r => !decide (r.id = rec0.id) })

/-- Input of `registerUser` after schema validation (`RegisterUserInput`;
`marketing_emails` is never read by the handler). -/
structure RegisterInput where
  email : String
  first_name : String
  last_name : String
  password : String
  phone_number : Option String
  deriving Repr, DecidableEq

/-- The `AuthResponse` user view (password hash omitted). -/
structure UserView where
  id : Nat
  email : String
  first_name : String
  last_name : String
  google_id : Option String
  phone_number : Option String
  is_email_verified : Bool
  created_at : Nat
  updated_at : Nat
  deriving Repr, DecidableEq

/-- The `AuthResponse` shape `{ user, token, is_new_user }`. -/
structure AuthResponse where
  user : UserView
  token : String
  is_new_user : Bool
  deriving Repr, DecidableEq

/-- The password-hash view of a user row. -/
def UserRow.view (u : UserRow) : UserView :=
  ⟨u.id, u.email, u.first_name, u.last_name, u.google_id, u.phone_number,
    u.is_email_verified, u.created_at, u.updated_at⟩

/-- `registerUser` (handlers/register_user.ts): throw when a user row with
the email exists; otherwise insert an unverified user with hash
`hashed_<password>`, then unconditionally insert a verification code row
expiring in 24 hours (86400000 ms) — this insert bypasses
`sendVerificationCode`'s cleanup and pending checks — and return the
user view, a token and `is_new_user = true`. -/
def registerUser (input : RegisterInput) (rand now : Nat) (s : Store) :
    Except String AuthResponse × Store :=
  let existingUsers := s.users.filter fun u => decide (u.email = input.email)
  if existingUsers.length > 0 then
    (Except.error "Email is already registered", s)
  else
    let newUser : UserRow :=
      ⟨s.nextUserId, input.email, input.first_name, input.last_name,
        some ("hashed_" ++ input.password), none, input.phone_number, false, now, now⟩
    let newRow : VerificationRow :=
      ⟨s.nextCodeId, input.email, genCode rand, now + 24 * 60 * 60 * 1000, now⟩
    (Except.ok
        ⟨newUser.view, "jwt_token_" ++ decToString newUser.id ++ "_" ++ decToString now, true⟩,
      { users := s.users ++ [newUser], codes := s.codes ++ [newRow],
        nextUserId := s.nextUserId + 1, nextCodeId := s.nextCodeId + 1 })

/-- Input of `googleSignIn` after schema validation (`GoogleSignInInput`);
`email_verified` is optional with zod default `true`, and the handler
additionally applies `?? true`, so `none` resolves to `true`. -/
structure GoogleInput where
  google_id : String
  email : String
  first_name : String
  last_name : String
  email_verified : Option Bool
  deriving Repr, DecidableEq

/-- `googleSignIn` (handlers/google_sign_in.ts): find the first user row
matching the google id or the email; if found, overwrite its google id,
names, verified flag (`input.email_verified ?? true`) and `updated_at`;
otherwise insert a new user row with a null password hash.  Always mint a
token. -/
def googleSignIn (input : GoogleInput) (now : Nat) (s : Store) :
    AuthResponse × Store :=
  match (s.users.filter fun u =>
      decide (u.google_id = some input.google_id ∨ u.email = input.email)) with
  | existing :: _ =>
    let updated : UserRow :=
      { existing with
          google_id := some input.google_id,
          first_name := input.first_name, last_name := input.last_name,
          is_email_verified := input.email_verified.getD true, updated_at := now }
    let users' := s.users.map fun u => if u.id = existing.id then updated else u
    (⟨updated.view, "jwt_" ++ decToString updated.id ++ "_" ++ decToString now, false⟩,
      { s with users := users' })
  | [] =>
    let newUser : UserRow :=
      ⟨s.nextUserId, input.email, input.first_name, input.last_name, none,
        some input.google_id, none, input.email_verified.getD true, now, now⟩
    (⟨newUser.view, "jwt_" ++ decToString newUser.id ++ "_" ++ decToString now, true⟩,
      { s with users := s.users ++ [newUser], nextUserId := s.nextUserId + 1 })

/-- The `{ available, suggestions? }` response of
`checkEmailAvailability`. -/
structure EmailAvailability where
  available : Bool
  suggestions : Option (List String)
  deriving Repr, DecidableEq

/-- `checkEmailAvailability` (handlers/check_email_availability.ts): if no
user row has the email, available; otherwise split the email at `'@'`
(JavaScript `split`, so `parts[0]`/`parts[1]` around the first `'@'`) and
return five deterministic suggestions built from the local part, the
domain and the current calendar year. -/
def checkEmailAvailability (email : String) (year : Nat) (s : Store) :
    EmailAvailability :=
  let existingUsers := s.users.filter fun u => decide (u.email = email)
  if existingUsers.length > 0 then
    let parts := jsSplit '@' email
    let localPart := strOrUndefined parts.head?
    let domain := strOrUndefined (parts.get? 1)
    { available := false,
      suggestions := some
        [localPart ++ "." ++ decToString year ++ "@" ++ domain,
         localPart ++ "_" ++ decToString year ++ "@" ++ domain,
         localPart ++ ".user@" ++ domain,
         localPart ++ "123@" ++ domain,
         localPart ++ "_official@" ++ domain] }
  else
    { available := true, suggestions := none }

/-- Number of live verification rows (expiry strictly after `t`) for email
`e` — the quantity the spec's at-most-one-live-code invariant bounds. -/
def liveCount (s : Store) (e : String) (t : Nat) : Nat :=
  (s.codes.filter fun r => decide (r.email = e ∧ t < r.expires_at)).length

/-- The invariant: at time `t`, every email has at most one live
verification row. -/
def atMostOneLive (s : Store) (t : Nat) : Prop :=
  ∀ e, liveCount s e t ≤ 1

/-- One client-visible operation with its explicit random input, as
dispatched by the RPC router. -/
inductive Op where
  | registerOp (input : RegisterInput) (rand : Nat)
  | googleOp (input : GoogleInput)
  | sendCodeOp (email : String) (rand : Nat)
  | verifyOp (email code : String)
  | checkAvailOp (email : String) (year : Nat)
  deriving Repr, DecidableEq

/-- The store after one operation runs at time `now`
(`checkEmailAvailability` never writes). -/
def applyOp : Op → Nat → Store → Store
  | .registerOp input rand, now, s => (registerUser input rand now s).2
  | .googleOp input, now, s => (googleSignIn input now s).2
  | .sendCodeOp email rand, now, s => (sendVerificationCode email rand now s).2
  | .verifyOp email code, now, s => (verifyEmail email code now s).2
  | .checkAvailOp _ _, _, s => s

/-- Sequential run of a list of timestamped operations. -/
def runTrace (s : Store) : List (Op × Nat) → Store
  | [] => s
  | (op, t) :: rest => runTrace (applyOp op t s) rest

/-- Operation times are nondecreasing, starting from `t`. -/
def timesOk : Nat → List (Op × Nat) → Bool
  | _, [] => true
  | t, (_, t') :: rest => decide (t ≤ t') && timesOk t' rest

/-- Every `registerUser` step in the trace starts with no live code row
for its email — the side condition under which registration's unguarded
code insert preserves the invariant. -/
def regOk : Store → List (Op × Nat) → Bool
  | _, [] => true
  | s, (op, t) :: rest =>
    (match op with
     | .registerOp input _ => decide (liveCount s input.email t = 0)
     | _ => true) && regOk (applyOp op t s) rest

/-- The time of the last operation of the trace (`t` when empty). -/
def endTime : Nat → List (Op × Nat) → Nat
  | t, [] => t
  | _, (_, t) :: rest => endTime t rest

/-- Whether an operation can only raise verified flags: every operation
except a `googleSignIn` whose asserted `email_verified` resolves to
`false` (the resolution is `input.email_verified ?? true`). -/
def opKeepsVerified : Op → Bool
  | .googleOp input => input.email_verified.getD true
  | _ => true

/-- Some user row with this id exists and has its email verified. -/
def userVerified (s : Store) (i : Nat) : Prop :=
  ∃ u ∈ s.users, u.id = i ∧ u.is_email_verified = true

/-- Reference definition of `Issue`, transcribed from the specification's
numbered steps rather than from the handler code: (1) fail
`AlreadyVerified` when a verified account for the email exists; (2) delete
the email's expired codes (expiry strictly before the current time);
(3) fail `AlreadyPending` when a live code (expiry strictly after the
current time) remains; (4) otherwise persist exactly one new code row and
succeed with `Issued`. -/
def issueSpec (email : String) (rand now : Nat) (s : Store) :
    HandlerResult × Store :=
  if ∃ u ∈ s.users, u.email = email ∧ u.is_email_verified = true then
    (⟨false, alreadyVerifiedMsg⟩, s)
  else
    let s1 : Store :=
      { s with codes := s.codes.filter fun r => !decide (r.email = email ∧ r.expires_at < now) }
    if ∃ r ∈ s1.codes, r.email = email ∧ now < r.expires_at then
      (⟨false, alreadyPendingMsg⟩, s1)
    else
      (⟨true, codeSentMsg⟩,
        { s1 with
            codes := s1.codes ++ [⟨s.nextCodeId, email, genCode rand, now + 15 * 60 * 1000, now⟩],
            nextCodeId := s.nextCodeId + 1 })


/-! ## Basic facts about the decimal-string embedding -/

theorem decDigitsAux_ne_nil {fuel n : Nat} (h : n < fuel) :
    decDigitsAux fuel n ≠ [] := by
  induction fuel generalizing n with
  | zero => omega
  | succ fuel _ =>
    unfold decDigitsAux
    split
    · simp
    · simp

theorem decDigitsAux_head_pos {fuel n : Nat} (hfuel : n < fuel) (hn : 0 < n)
    {d : Nat} (hd : (decDigitsAux fuel n).head? = some d) : 0 < d := by
  induction fuel generalizing n with
  | zero => omega
  | succ fuel ih =>
    unfold decDigitsAux at hd
    split at hd
    · simp at hd
      omega
    · rename_i hge
      have hlt : n / 10 < fuel := by
        have : n / 10 < n := Nat.div_lt_self hn (by omega)
        omega
      have hpos : 0 < n / 10 := Nat.div_pos (by omega) (by omega)
      have hne := decDigitsAux_ne_nil hlt
      rw [List.head?_append_of_ne_nil _ hne] at hd
      exact ih hlt hpos hd

theorem decDigitsAux_mem_lt {fuel n d : Nat} (h : d ∈ decDigitsAux fuel n) :
    d < 10 := by
  induction fuel generalizing n with
  | zero => simp [decDigitsAux] at h
  | succ fuel ih =>
    unfold decDigitsAux at h
    split at h
    · rename_i hlt
      simp at h
      omega
    · rcases List.mem_append.mp h with h1 | h2
      · exact ih h1
      · simp at h2
        omega

theorem decDigitsAux_length {k : Nat} : ∀ {fuel n : Nat}, n < fuel →
    10 ^ k ≤ n → n < 10 ^ (k + 1) → (decDigitsAux fuel n).length = k + 1 := by
  induction k with
  | zero =>
    intro fuel n hfuel hlo hhi
    match fuel, hfuel with
    | fuel + 1, _ =>
      unfold decDigitsAux
      rw [if_pos (by simpa using hhi)]
      rfl
  | succ k ih =>
    intro fuel n hfuel hlo hhi
    match fuel, hfuel with
    | fuel + 1, hfuel =>
      have hge : ¬ n < 10 := by
        have : 10 ≤ 10 ^ (k + 1) := by
          calc 10 = 10 ^ 1 := (pow_one 10).symm
          _ ≤ 10 ^ (k + 1) := Nat.pow_le_pow_right (by omega) (by omega)
        omega
      unfold decDigitsAux
      rw [if_neg hge]
      have hdivlt : n / 10 < fuel := by
        have : n / 10 < n := Nat.div_lt_self (by omega) (by omega)
        omega
      have hdivlo : 10 ^ k ≤ n / 10 := by
        rw [Nat.le_div_iff_mul_le (by omega)]
        calc 10 ^ k * 10 = 10 ^ (k + 1) := by ring
        _ ≤ n := hlo
      have hdivhi : n / 10 < 10 ^ (k + 1) := by
        rw [Nat.div_lt_iff_lt_mul (by omega)]
        calc n < 10 ^ (k + 2) := hhi
        _ = 10 ^ (k + 1) * 10 := by ring
      rw [List.length_append, ih hdivlt hdivlo hdivhi]
      simp

theorem decDigits_head_pos {n : Nat} (hn : 0 < n) {d : Nat}
    (hd : (decDigits n).head? = some d) : 0 < d :=
  decDigitsAux_head_pos (Nat.lt_succ_self n) hn hd

theorem decDigits_ne_nil (n : Nat) : decDigits n ≠ [] :=
  decDigitsAux_ne_nil (Nat.lt_succ_self n)

theorem decDigits_length {k n : Nat} (hlo : 10 ^ k ≤ n) (hhi : n < 10 ^ (k + 1)) :
    (decDigits n).length = k + 1 :=
  decDigitsAux_length (Nat.lt_succ_self n) hlo hhi

theorem decToString_length {k n : Nat} (hlo : 10 ^ k ≤ n) (hhi : n < 10 ^ (k + 1)) :
    (decToString n).length = k + 1 := by
  simp [decToString, String.length_mk, decDigits_length hlo hhi]

/-- The decimal string of a positive number never starts with the
character `0`. -/
theorem decToString_head_ne_zero {n : Nat} (hn : 0 < n) :
    (decToString n).data.head? ≠ some '0' := by
  intro hcontra
  have hmk : (decToString n).data = (decDigits n).map Nat.digitChar := rfl
  rw [hmk, List.head?_map] at hcontra
  rcases hhead : (decDigits n).head? with _ | d
  · rw [hhead] at hcontra
    simp at hcontra
  · rw [hhead] at hcontra
    simp at hcontra
    have hpos : 0 < d := decDigits_head_pos hn hhead
    have hlt : d < 10 := by
      have hmem : d ∈ decDigits n :=
        List.mem_of_mem_head? (by simp [Option.mem_def, hhead])
      exact decDigitsAux_mem_lt hmem
    have : ∀ d : Nat, d < 10 → Nat.digitChar d = '0' → d = 0 := by decide
    have := this d hlt hcontra
    omega

/-! ## Basic facts about the split embedding -/

theorem jsSplitAux_no_sep {c : Char} {l : List Char} (acc : List Char)
    (h : ∀ x ∈ l, x ≠ c) : jsSplitAux c l acc = [acc.reverse ++ l] := by
  induction l generalizing acc with
  | nil => simp [jsSplitAux]
  | cons x xs ih =>
    simp only [jsSplitAux]
    rw [if_neg (h x (by simp))]
    rw [ih (x :: acc) (fun y hy => h y (by simp [hy]))]
    simp

theorem jsSplitAux_sep {c : Char} {l₁ : List Char} (l₂ acc : List Char)
    (h : ∀ x ∈ l₁, x ≠ c) :
    jsSplitAux c (l₁ ++ c :: l₂) acc = (acc.reverse ++ l₁) :: jsSplitAux c l₂ [] := by
  induction l₁ generalizing acc with
  | nil => simp [jsSplitAux]
  | cons x xs ih =>
    rw [List.cons_append]
    simp only [jsSplitAux]
    rw [if_neg (h x (by simp))]
    rw [ih (x :: acc) (fun y hy => h y (by simp [hy]))]
    simp

/-- Splitting a string with exactly one occurrence of the separator yields
the two surrounding segments. -/
theorem jsSplit_pair {l d : List Char}
    (hl : ∀ x ∈ l, x ≠ '@') (hd : ∀ x ∈ d, x ≠ '@') :
    jsSplit '@' (String.mk (l ++ '@' :: d)) = [String.mk l, String.mk d] := by
  unfold jsSplit
  have : (String.mk (l ++ '@' :: d)).data = l ++ '@' :: d := rfl
  rw [this, jsSplitAux_sep d [] hl, jsSplitAux_no_sep [] hd]
  simp

/-! ## List helper lemmas -/

theorem length_filter_le_of_imp {α : Type} {p q : α → Bool} (l : List α)
    (h : ∀ a, p a = true → q a = true) :
    (l.filter p).length ≤ (l.filter q).length := by
  refine List.Sublist.length_le (List.monotone_filter_right l ?_)
  intro a
  cases hp : p a with
  | false => exact Bool.false_le _
  | true => simp [h a hp]

theorem eq_singleton_of_length_le_one {α : Type} {l : List α} {a : α}
    (h : l.length ≤ 1) (ha : a ∈ l) : l = [a] := by
  cases l with
  | nil => simp at ha
  | cons b rest =>
    cases rest with
    | nil =>
      simp at ha
      simp [ha]
    | cons c r2 =>
      simp only [List.length_cons] at h
      omega

theorem filter_key_length_le_one {α β : Type} [DecidableEq β] (f : α → β) (b : β)
    (l : List α) (h : (l.map f).Nodup) :
    (l.filter fun a => decide (f a = b)).length ≤ 1 := by
  induction l with
  | nil => simp
  | cons x xs ih =>
    rw [List.map_cons, List.nodup_cons] at h
    rw [List.filter_cons]
    by_cases hx : f x = b
    · rw [if_pos (by simp [hx])]
      have hnil : (xs.filter fun a => decide (f a = b)).length = 0 := by
        rw [List.length_eq_zero, List.filter_eq_nil_iff]
        intro a ha
        simp only [decide_eq_true_eq]
        intro hab
        exact h.1 (hx ▸ hab ▸ List.mem_map_of_mem f ha)
      simp [hnil]
    · rw [if_neg (by simp [hx])]
      exact ih h.2

theorem length_filter_of_filter_le {α : Type} (l : List α) (keep p : α → Bool) :
    ((l.filter keep).filter p).length ≤ (l.filter p).length :=
  List.Sublist.length_le (List.Sublist.filter p (List.filter_sublist l))

/-! ## Traces of operations and the live-code invariant -/

theorem liveCount_anti (s : Store) (e : String) {t t' : Nat} (h : t ≤ t') :
    liveCount s e t' ≤ liveCount s e t := by
  unfold liveCount
  refine length_filter_le_of_imp _ ?_
  intro r hr
  simp only [decide_eq_true_eq] at hr ⊢
  exact ⟨hr.1, by omega⟩

theorem atMostOneLive_anti {s : Store} {t t' : Nat} (h : t ≤ t')
    (hs : atMostOneLive s t) : atMostOneLive s t' :=
  fun e => le_trans (liveCount_anti s e h) (hs e)

/-- The three possible shapes of the code table after
`sendVerificationCode`: untouched, only swept, or swept plus one freshly
inserted row (in which case the live check found nothing). -/
theorem sendVerificationCode_codes (email : String) (rand now : Nat) (s : Store) :
    (sendVerificationCode email rand now s).2.codes = s.codes ∨
    (sendVerificationCode email rand now s).2.codes =
      (s.codes.filter fun r => !decide (r.email = email ∧ r.expires_at < now)) ∨
    ((sendVerificationCode email rand now s).2.codes =
        (s.codes.filter fun r => !decide (r.email = email ∧ r.expires_at < now)) ++
          [⟨s.nextCodeId, email, genCode rand, now + 15 * 60 * 1000, now⟩] ∧
      ((s.codes.filter fun r => !decide (r.email = email ∧ r.expires_at < now)).filter
          fun r => decide (r.email = email ∧ now < r.expires_at)).length = 0) := by
  simp only [sendVerificationCode]
  split
  · left; rfl
  · split
    · right; left; rfl
    · rename_i hno
      right; right
      refine ⟨rfl, ?_⟩
      omega

/-- `sendVerificationCode` never loses the invariant. -/
theorem sendCode_preserves {email : String} {rand now : Nat} {s : Store}
    (h : atMostOneLive s now) :
    atMostOneLive (sendVerificationCode email rand now s).2 now := by
  intro e
  unfold liveCount
  rcases sendVerificationCode_codes email rand now s with h1 | h1 | ⟨h1, h0⟩
  · rw [h1]; exact h e
  · rw [h1]; exact le_trans (length_filter_of_filter_le _ _ _) (h e)
  · rw [h1, List.filter_append, List.length_append]
    by_cases he : email = e
    · subst he
      rw [h0]
      have h2 : (List.filter (fun r => decide (r.email = email ∧ now < r.expires_at))
          ([⟨s.nextCodeId, email, genCode rand, now + 15 * 60 * 1000, now⟩] :
            List VerificationRow)).length ≤ 1 :=
        le_trans (List.length_filter_le _ _) (by simp)
      omega
    · have h2 : (List.filter (fun r => decide (r.email = e ∧ now < r.expires_at))
          ([⟨s.nextCodeId, email, genCode rand, now + 15 * 60 * 1000, now⟩] :
            List VerificationRow)) = [] := by
        simp [he]
      rw [h2]
      simp only [List.length_nil, Nat.add_zero]
      exact le_trans (length_filter_of_filter_le _ _ _) (h e)

/-- The two possible shapes of the code table after `registerUser`:
untouched (email taken) or extended by the unconditionally inserted
24-hour code row. -/
theorem registerUser_codes (input : RegisterInput) (rand now : Nat) (s : Store) :
    (registerUser input rand now s).2.codes = s.codes ∨
    (registerUser input rand now s).2.codes =
      s.codes ++ [⟨s.nextCodeId, input.email, genCode rand, now + 24 * 60 * 60 * 1000, now⟩] := by
  simp only [registerUser]
  split
  · left; rfl
  · right; rfl

/-- `registerUser` preserves the invariant when no live row exists for its
email beforehand. -/
theorem register_preserves {input : RegisterInput} {rand now : Nat} {s : Store}
    (h : atMostOneLive s now) (hguard : liveCount s input.email now = 0) :
    atMostOneLive (registerUser input rand now s).2 now := by
  intro e
  unfold liveCount
  rcases registerUser_codes input rand now s with h1 | h1
  · rw [h1]; exact h e
  · rw [h1, List.filter_append, List.length_append]
    by_cases he : input.email = e
    · subst he
      unfold liveCount at hguard
      rw [hguard]
      have h2 : (List.filter (fun r => decide (r.email = input.email ∧ now < r.expires_at))
          ([⟨s.nextCodeId, input.email, genCode rand, now + 24 * 60 * 60 * 1000, now⟩] :
            List VerificationRow)).length ≤ 1 :=
        le_trans (List.length_filter_le _ _) (by simp)
      omega
    · have h2 : (List.filter (fun r => decide (r.email = e ∧ now < r.expires_at))
          ([⟨s.nextCodeId, input.email, genCode rand, now + 24 * 60 * 60 * 1000, now⟩] :
            List VerificationRow)) = [] := by
        simp [he]
      rw [h2]
      simp only [List.length_nil, Nat.add_zero]
      exact h e

/-- The code table after `verifyEmail` is either untouched or one deleted
row id away from the original. -/
theorem verifyEmail_codes (email code : String) (now : Nat) (s : Store) :
    (verifyEmail email code now s).2.codes = s.codes ∨
    ∃ i, (verifyEmail email code now s).2.codes =
      s.codes.filter fun r => !decide (r.id = i) := by
  cases hm : s.codes.filter fun r =>
      decide (r.email = email ∧ r.verification_code = code) with
  | nil =>
    left
    unfold verifyEmail
    rw [hm]
  | cons rec0 rest =>
    unfold verifyEmail
    rw [hm]
    dsimp only
    split
    · right; exact ⟨rec0.id, rfl⟩
    · split
      · left; rfl
      · right; exact ⟨rec0.id, rfl⟩

/-- `verifyEmail` never loses the invariant (it only deletes code rows),
at any reference time. -/
theorem verify_preserves (email code : String) (now t : Nat) {s : Store}
    (h : atMostOneLive s t) :
    atMostOneLive (verifyEmail email code now s).2 t := by
  intro e
  unfold liveCount
  rcases verifyEmail_codes email code now s with h1 | ⟨i, h1⟩
  · rw [h1]; exact h e
  · rw [h1]; exact le_trans (length_filter_of_filter_le _ _ _) (h e)

theorem google_codes (input : GoogleInput) (now : Nat) (s : Store) :
    (googleSignIn input now s).2.codes = s.codes := by
  simp only [googleSignIn]
  split <;> rfl

theorem google_preserves (input : GoogleInput) (now t : Nat) {s : Store}
    (h : atMostOneLive s t) :
    atMostOneLive (googleSignIn input now s).2 t := by
  intro e
  unfold liveCount
  rw [google_codes]
  exact h e

theorem runTrace_preserves : ∀ (tr : List (Op × Nat)) (s : Store) (t : Nat),
    atMostOneLive s t → timesOk t tr = true → regOk s tr = true →
    atMostOneLive (runTrace s tr) (endTime t tr) := by
  intro tr
  induction tr with
  | nil => intro s t h _ _; exact h
  | cons p rest ih =>
    obtain ⟨op, t'⟩ := p
    intro s t h hmono hguard
    simp only [timesOk, Bool.and_eq_true, decide_eq_true_eq] at hmono
    simp only [regOk, Bool.and_eq_true] at hguard
    have h' : atMostOneLive s t' := atMostOneLive_anti hmono.1 h
    have hstep : atMostOneLive (applyOp op t' s) t' := by
      cases op with
      | registerOp input rand =>
        have hg : liveCount s input.email t' = 0 := by
          have hg0 := hguard.1
          simp only [decide_eq_true_eq] at hg0
          exact hg0
        exact register_preserves h' hg
      | googleOp input => exact google_preserves input t' t' h'
      | sendCodeOp em rand => exact sendCode_preserves h'
      | verifyOp em c => exact verify_preserves em c t' t' h'
      | checkAvailOp em y => exact h'
    exact ih (applyOp op t' s) t' hstep hmono.2 hguard.2

/-! ## User-table shapes of the operations -/

theorem sendVerificationCode_users (email : String) (rand now : Nat) (s : Store) :
    (sendVerificationCode email rand now s).2.users = s.users := by
  simp only [sendVerificationCode]
  split
  · rfl
  · split <;> rfl

theorem registerUser_users (input : RegisterInput) (rand now : Nat) (s : Store) :
    (registerUser input rand now s).2.users = s.users ∨
    ∃ u, (registerUser input rand now s).2.users = s.users ++ [u] := by
  simp only [registerUser]
  split
  · left; rfl
  · right; exact ⟨_, rfl⟩

theorem verifyEmail_users (email code : String) (now : Nat) (s : Store) :
    (verifyEmail email code now s).2.users = s.users ∨
    (verifyEmail email code now s).2.users =
      s.users.map fun u =>
        if u.email = email then { u with is_email_verified := true, updated_at := now }
        else u := by
  cases hm : s.codes.filter fun r =>
      decide (r.email = email ∧ r.verification_code = code) with
  | nil =>
    left
    unfold verifyEmail
    rw [hm]
  | cons rec0 rest =>
    unfold verifyEmail
    rw [hm]
    dsimp only
    split
    · left; rfl
    · split
      · right; rfl
      · right; rfl

/-- One operation with `opKeepsVerified` cannot clear any user's verified
flag: a verified id stays verified. -/
theorem verified_mono_step (op : Op) (t : Nat) (s : Store)
    (hop : opKeepsVerified op = true) {i : Nat}
    (h : userVerified s i) : userVerified (applyOp op t s) i := by
  obtain ⟨u0, hu0, hid, hver⟩ := h
  cases op with
  | registerOp input rand =>
    show userVerified (registerUser input rand t s).2 i
    rcases registerUser_users input rand t s with h1 | ⟨u, h1⟩ <;>
      unfold userVerified <;> rw [h1]
    · exact ⟨u0, hu0, hid, hver⟩
    · exact ⟨u0, List.mem_append_left _ hu0, hid, hver⟩
  | googleOp input =>
    show userVerified (googleSignIn input t s).2 i
    simp only [opKeepsVerified] at hop
    cases hm : s.users.filter fun u =>
        decide (u.google_id = some input.google_id ∨ u.email = input.email) with
    | nil =>
      unfold userVerified googleSignIn
      rw [hm]
      dsimp only
      exact ⟨u0, List.mem_append_left _ hu0, hid, hver⟩
    | cons existing rest =>
      unfold userVerified googleSignIn
      rw [hm]
      dsimp only
      by_cases hcase : u0.id = existing.id
      · refine ⟨_, List.mem_map_of_mem _ hu0, ?_⟩
        rw [if_pos hcase]
        exact ⟨hcase ▸ hid, hop⟩
      · refine ⟨_, List.mem_map_of_mem _ hu0, ?_⟩
        rw [if_neg hcase]
        exact ⟨hid, hver⟩
  | sendCodeOp em rand =>
    show userVerified (sendVerificationCode em rand t s).2 i
    unfold userVerified
    rw [sendVerificationCode_users]
    exact ⟨u0, hu0, hid, hver⟩
  | verifyOp em c =>
    show userVerified (verifyEmail em c t s).2 i
    rcases verifyEmail_users em c t s with h1 | h1 <;> unfold userVerified <;> rw [h1]
    · exact ⟨u0, hu0, hid, hver⟩
    · by_cases hcase : u0.email = em
      · refine ⟨_, List.mem_map_of_mem _ hu0, ?_⟩
        rw [if_pos hcase]
        exact ⟨hid, rfl⟩
      · refine ⟨_, List.mem_map_of_mem _ hu0, ?_⟩
        rw [if_neg hcase]
        exact ⟨hid, hver⟩
  | checkAvailOp em y =>
    exact ⟨u0, hu0, hid, hver⟩

/-- Along any trace whose operations all keep verified flags, a verified
id stays verified. -/
theorem runTrace_verified_mono : ∀ (tr : List (Op × Nat)) (s : Store),
    (∀ p ∈ tr, opKeepsVerified p.1 = true) → ∀ i,
    userVerified s i → userVerified (runTrace s tr) i := by
  intro tr
  induction tr with
  | nil => intro s _ i h; exact h
  | cons p rest ih =>
    obtain ⟨op, t⟩ := p
    intro s hops i h
    exact ih (applyOp op t s) (fun q hq => hops q (List.mem_cons_of_mem _ hq)) i
      (verified_mono_step op t s (hops (op, t) (List.mem_cons_self _ _)) h)

/-! ## The code's first-match checks against the spec's existential checks -/

/-- Under the users table's unique-email constraint, the code's check
`existingUsers[0].is_email_verified` agrees with the spec's "an account
for the email exists and is verified". -/
theorem head_verified_iff (l : List UserRow) (email : String)
    (h : (l.map (·.email)).Nodup) :
    ((((l.filter fun u => decide (u.email = email)).head?).map
        (·.is_email_verified)).getD false) = true ↔
      ∃ u ∈ l, u.email = email ∧ u.is_email_verified = true := by
  constructor
  · intro hh
    cases hf : (l.filter fun u => decide (u.email = email)).head? with
    | none =>
      rw [hf] at hh
      exact absurd hh (by decide)
    | some u =>
      rw [hf] at hh
      simp only [Option.map_some', Option.getD_some] at hh
      have hu : u ∈ l.filter fun u => decide (u.email = email) :=
        List.mem_of_mem_head? (by simp [Option.mem_def, hf])
      have hmem := List.mem_filter.mp hu
      exact ⟨u, hmem.1, by simpa using hmem.2, hh⟩
  · rintro ⟨u, hu, hemail, hver⟩
    have hmemf : u ∈ l.filter fun u => decide (u.email = email) :=
      List.mem_filter.mpr ⟨hu, by simp [hemail]⟩
    have hle := filter_key_length_le_one (·.email) email l h
    have hsing := eq_singleton_of_length_le_one hle hmemf
    rw [hsing]
    simp [hver]

/-- When `sendVerificationCode` reports success, the verified-account
check was negative, the code table is the swept table plus the fresh row,
and no live row for the email survived the sweep. -/
theorem sendVerificationCode_success (email : String) (rand now : Nat) (s : Store)
    (hs : (sendVerificationCode email rand now s).1.success = true) :
    ((((s.users.filter fun u => decide (u.email = email)).head?).map
        (·.is_email_verified)).getD false) = false ∧
    (sendVerificationCode email rand now s).2.codes =
      (s.codes.filter fun r => !decide (r.email = email ∧ r.expires_at < now)) ++
        [⟨s.nextCodeId, email, genCode rand, now + 15 * 60 * 1000, now⟩] ∧
    ((s.codes.filter fun r => !decide (r.email = email ∧ r.expires_at < now)).filter
        fun r => decide (r.email = email ∧ now < r.expires_at)).length = 0 := by
  simp only [sendVerificationCode] at hs ⊢
  split at hs
  · simp at hs
  · rename_i h1
    split at hs
    · simp at hs
    · rename_i h2
      rw [if_neg h1, if_neg h2]
      refine ⟨Bool.eq_false_iff.mpr h1, rfl, ?_⟩
      omega

/-- On stores satisfying the users table's unique-email constraint, the
handler equals the spec's reference definition of `Issue`. -/
theorem send_matches_issueSpec (email : String) (rand now : Nat) (s : Store)
    (h : (s.users.map (·.email)).Nodup) :
    sendVerificationCode email rand now s = issueSpec email rand now s := by
  simp only [sendVerificationCode, issueSpec]
  by_cases h1 : ∃ u ∈ s.users, u.email = email ∧ u.is_email_verified = true
  · rw [if_pos ((head_verified_iff s.users email h).mpr h1), if_pos h1]
  · rw [if_neg (fun hc => h1 ((head_verified_iff s.users email h).mp hc)), if_neg h1]
    by_cases h2 : ∃ r ∈ s.codes.filter fun r =>
        !decide (r.email = email ∧ r.expires_at < now), r.email = email ∧ now < r.expires_at
    · obtain ⟨r, hr, hp⟩ := h2
      have hmem : r ∈ (s.codes.filter fun r =>
          !decide (r.email = email ∧ r.expires_at < now)).filter
            fun r => decide (r.email = email ∧ now < r.expires_at) :=
        List.mem_filter.mpr ⟨hr, by simp [hp.1, hp.2]⟩
      rw [if_pos (List.length_pos_of_mem hmem), if_pos ⟨r, hr, hp⟩]
    · have hlen : ¬ ((s.codes.filter fun r =>
          !decide (r.email = email ∧ r.expires_at < now)).filter
            fun r => decide (r.email = email ∧ now < r.expires_at)).length > 0 := by
        intro hpos
        obtain ⟨r, hr⟩ := List.exists_mem_of_length_pos hpos
        have hmem := List.mem_filter.mp hr
        exact h2 ⟨r, hmem.1, by simpa using hmem.2⟩
      rw [if_neg hlen, if_neg h2]

/-- A successful `sendVerificationCode` immediately followed by another
one for the same email (same clock reading) yields `AlreadyPending` and
leaves the store as after the first call. -/
theorem send_twice_pending (email : String) (rand rand2 now : Nat) (s : Store)
    (hs : (sendVerificationCode email rand now s).1.success = true) :
    sendVerificationCode email rand2 now (sendVerificationCode email rand now s).2 =
      (⟨false, alreadyPendingMsg⟩, (sendVerificationCode email rand now s).2) := by
  obtain ⟨husers, hcodes, hlive⟩ := sendVerificationCode_success email rand now s hs
  have husers1 := sendVerificationCode_users email rand now s
  generalize hs1 : (sendVerificationCode email rand now s).2 = s1 at hcodes husers1 ⊢
  simp only [sendVerificationCode]
  rw [if_neg (show ¬ ((((s1.users.filter fun u => decide (u.email = email)).head?).map
      (·.is_email_verified)).getD false) = true by
    intro hc
    rw [husers1, husers] at hc
    exact absurd hc (by decide))]
  have hclean : (s1.codes.filter fun r =>
      !decide (r.email = email ∧ r.expires_at < now)) = s1.codes := by
    rw [List.filter_eq_self]
    intro r hr
    rw [hcodes] at hr
    rcases List.mem_append.mp hr with hr1 | hr2
    · exact (List.mem_filter.mp hr1).2
    · rw [List.mem_singleton.mp hr2]
      have hlt : ¬ (now + 15 * 60 * 1000 < now) := by omega
      simp [hlt]
  have hpos : ((s1.codes.filter fun r =>
      decide (r.email = email ∧ now < r.expires_at))).length > 0 := by
    have hmem : (⟨s.nextCodeId, email, genCode rand, now + 15 * 60 * 1000, now⟩ :
        VerificationRow) ∈ s1.codes := by
      rw [hcodes]
      exact List.mem_append_right _ (List.mem_singleton_self _)
    have hlt : now < now + 15 * 60 * 1000 := by omega
    exact List.length_pos_of_mem (List.mem_filter.mpr ⟨hmem, by simp [hlt]⟩)
  rw [hclean, if_pos hpos]

/-! ## Claim C1 -/

/-- C1 (amended): in every store reachable by a sequential run with a
nondecreasing clock from the empty store, each email has at most one live
verification-code row, PROVIDED every `registerUser` step runs at a moment
with no live code row for its email.  The proviso is necessary:
`registerUser` inserts its 24-hour code directly, bypassing the Issue
path's sweep and pending check, so with a live row already present it
creates a second one (see the counterexample). -/
theorem live_code_invariant_of_guarded_registration
    (tr : List (Op × Nat)) (t0 : Nat)
    (hmono : timesOk t0 tr = true) (hguard : regOk Store.empty tr = true) :
    atMostOneLive (runTrace Store.empty tr) (endTime t0 tr) :=
  runTrace_preserves tr Store.empty t0
    (fun e => by simp [liveCount, Store.empty]) hmono hguard

/-- C1 witness: a concrete guarded run — register one account, then issue
a code for a different email — ends with at most one live row per email. -/
theorem live_code_invariant_guarded_witness :
    atMostOneLive
      (runTrace Store.empty
        [(Op.registerOp ⟨"a@x.com", "Ada", "Lovelace", "Password1", none⟩ 3, 5),
         (Op.sendCodeOp "b@y.com" 7, 9)]) 9 :=
  live_code_invariant_of_guarded_registration
    [(Op.registerOp ⟨"a@x.com", "Ada", "Lovelace", "Password1", none⟩ 3, 5),
     (Op.sendCodeOp "b@y.com" 7, 9)] 0 (by decide) (by decide)

/-- C1 counterexample: from the empty store, `sendVerificationCode` for an
email with no account yet (allowed: only a *verified* account blocks it)
followed by `registerUser` for the same email — a sequential run at one
clock instant — leaves TWO live code rows for that email, refuting the
claim that `registerUser` preserves the at-most-one-live-code invariant
when a live row already exists. -/
theorem register_breaks_live_code_invariant :
    liveCount
      (runTrace Store.empty
        [(Op.sendCodeOp "a@x.com" 0, 0),
         (Op.registerOp ⟨"a@x.com", "Ada", "Lovelace", "Password1", none⟩ 0, 0)])
      "a@x.com" 0 = 2 ∧
    ¬ atMostOneLive
        (runTrace Store.empty
          [(Op.sendCodeOp "a@x.com" 0, 0),
           (Op.registerOp ⟨"a@x.com", "Ada", "Lovelace", "Password1", none⟩ 0, 0)]) 0 := by
  refine ⟨by decide, fun hinv => ?_⟩
  have h2 := hinv "a@x.com"
  have h1 : liveCount
      (runTrace Store.empty
        [(Op.sendCodeOp "a@x.com" 0, 0),
         (Op.registerOp ⟨"a@x.com", "Ada", "Lovelace", "Password1", none⟩ 0, 0)])
      "a@x.com" 0 = 2 := by decide
  omega

/-! ## Claim C2 -/

/-- C2: on every store obeying the users table's unique-email constraint,
`sendVerificationCode` equals the spec's reference definition of `Issue`
(`AlreadyVerified` short-circuit, unconditional sweep of strictly expired
rows, `AlreadyPending` iff a strictly live row remains, otherwise exactly
one insert); consequently a successful call immediately followed by
another call for the same email at the same time yields `AlreadyPending`
and changes nothing further. -/
theorem issue_matches_reference (email : String) (rand rand2 now : Nat) (s : Store)
    (h : (s.users.map (·.email)).Nodup) :
    sendVerificationCode email rand now s = issueSpec email rand now s ∧
    ((sendVerificationCode email rand now s).1.success = true →
      sendVerificationCode email rand2 now (sendVerificationCode email rand now s).2 =
        (⟨false, alreadyPendingMsg⟩, (sendVerificationCode email rand now s).2)) :=
  ⟨send_matches_issueSpec email rand now s h, send_twice_pending email rand rand2 now s⟩

/-- C2 witness: the refinement and the issue-then-pending consequence at a
concrete input (fresh email on the empty store). -/
theorem issue_matches_reference_witness :
    sendVerificationCode "a@x.com" 0 1000 Store.empty =
      issueSpec "a@x.com" 0 1000 Store.empty ∧
    ((sendVerificationCode "a@x.com" 0 1000 Store.empty).1.success = true →
      sendVerificationCode "a@x.com" 1 1000 (sendVerificationCode "a@x.com" 0 1000 Store.empty).2 =
        (⟨false, alreadyPendingMsg⟩, (sendVerificationCode "a@x.com" 0 1000 Store.empty).2)) :=
  issue_matches_reference "a@x.com" 0 1 1000 Store.empty (by decide)

/-! ## Deleting one row by id -/

/-- Deleting the single row with a given id (ids are unique) removes
exactly one element from any filtered count that contains it. -/
theorem length_filter_not_id_add_one {l : List VerificationRow} {r : VerificationRow}
    (hids : (l.map (·.id)).Nodup) (hr : r ∈ l) (p : VerificationRow → Bool)
    (hp : p r = true) :
    ((l.filter fun x => !decide (x.id = r.id)).filter p).length + 1 =
      (l.filter p).length := by
  induction l with
  | nil => simp at hr
  | cons x xs ih =>
    rw [List.map_cons, List.nodup_cons] at hids
    rcases List.mem_cons.mp hr with hrx | hrxs
    · subst hrx
      have h1 : (List.filter (fun y => !decide (y.id = r.id)) (r :: xs)) = xs := by
        rw [List.filter_cons_of_neg (by simp)]
        rw [List.filter_eq_self]
        intro y hy
        have hne : y.id ≠ r.id := fun hyx =>
          hids.1 (hyx ▸ List.mem_map_of_mem (·.id) hy)
        simp [hne]
      rw [h1, List.filter_cons_of_pos (by exact hp)]
      simp [List.length_cons]
    · have hxid : ¬ (x.id = r.id) := fun heq =>
        hids.1 (heq ▸ List.mem_map_of_mem (·.id) hrxs)
      rw [List.filter_cons_of_pos (by simp [hxid])]
      by_cases hpx : p x = true
      · rw [List.filter_cons_of_pos (by exact hpx), List.filter_cons_of_pos (by exact hpx)]
        simp only [List.length_cons]
        have := ih hids.2 hrxs
        omega
      · rw [List.filter_cons_of_neg (by simp [hpx]), List.filter_cons_of_neg (by simp [hpx])]
        exact ih hids.2 hrxs

/-! ## Claim C3 -/

/-- C3 (amended): when the first code row matching (email, code) is live
(expiry strictly after the current time) and an account with that email
exists, `verifyEmail` returns `Verified`, sets `is_email_verified` and
refreshes `updated_at` on the accounts with that email, and deletes
exactly the consumed row (ids unique), so the row count for that email
drops by exactly one — it reaches 0 only when the consumed row was the
email's only row. -/
theorem consume_success (email code : String) (now : Nat) (s : Store)
    (r : VerificationRow)
    (hr : (s.codes.filter fun x =>
      decide (x.email = email ∧ x.verification_code = code)).head? = some r)
    (hlive : now < r.expires_at)
    (hacc : (s.users.filter fun u => decide (u.email = email)).length ≠ 0)
    (hids : (s.codes.map (·.id)).Nodup) :
    verifyEmail email code now s =
      (⟨true, emailVerifiedMsg⟩,
        { s with
            users := s.users.map fun u =>
              if u.email = email then
                { u with is_email_verified := true, updated_at := now }
              else u,
            codes := s.codes.filter fun x => !decide (x.id = r.id) }) ∧
    ((verifyEmail email code now s).2.codes.filter fun x =>
        decide (x.email = email)).length + 1 =
      (s.codes.filter fun x => decide (x.email = email)).length := by
  obtain ⟨tail, htail⟩ := List.head?_eq_some_iff.mp hr
  have hrmem0 : r ∈ s.codes.filter fun x =>
      decide (x.email = email ∧ x.verification_code = code) := by
    rw [htail]; exact List.mem_cons_self _ _
  have hrmem := List.mem_filter.mp hrmem0
  have hremail : r.email = email := by
    have := hrmem.2
    simp only [decide_eq_true_eq] at this
    exact this.1
  have hmain : verifyEmail email code now s =
      (⟨true, emailVerifiedMsg⟩,
        { s with
            users := s.users.map fun u =>
              if u.email = email then
                { u with is_email_verified := true, updated_at := now }
              else u,
            codes := s.codes.filter fun x => !decide (x.id = r.id) }) := by
    unfold verifyEmail
    rw [htail]
    dsimp only
    rw [if_neg (show ¬ r.expires_at < now by omega), if_neg hacc]
  refine ⟨hmain, ?_⟩
  rw [hmain]
  exact length_filter_not_id_add_one hids hrmem.1 _ (by simp [hremail])

/-- C3 witness: consuming the only live row of an email with an existing
unverified account. -/
theorem consume_success_witness :
    verifyEmail "a@x.com" "123456" 50
      ⟨[⟨1, "a@x.com", "Ada", "L", some "hashed_pw", none, none, false, 0, 0⟩],
        [⟨1, "a@x.com", "123456", 100, 0⟩], 2, 2⟩ =
      (⟨true, emailVerifiedMsg⟩,
        { (⟨[⟨1, "a@x.com", "Ada", "L", some "hashed_pw", none, none, false, 0, 0⟩],
            [⟨1, "a@x.com", "123456", 100, 0⟩], 2, 2⟩ : Store) with
            users := (⟨[⟨1, "a@x.com", "Ada", "L", some "hashed_pw", none, none, false, 0, 0⟩],
              [⟨1, "a@x.com", "123456", 100, 0⟩], 2, 2⟩ : Store).users.map fun u =>
                if u.email = "a@x.com" then
                  { u with is_email_verified := true, updated_at := 50 }
                else u,
            codes := (⟨[⟨1, "a@x.com", "Ada", "L", some "hashed_pw", none, none, false, 0, 0⟩],
              [⟨1, "a@x.com", "123456", 100, 0⟩], 2, 2⟩ : Store).codes.filter fun x =>
                !decide (x.id = (⟨1, "a@x.com", "123456", 100, 0⟩ : VerificationRow).id) }) ∧
    ((verifyEmail "a@x.com" "123456" 50
        ⟨[⟨1, "a@x.com", "Ada", "L", some "hashed_pw", none, none, false, 0, 0⟩],
          [⟨1, "a@x.com", "123456", 100, 0⟩], 2, 2⟩).2.codes.filter fun x =>
        decide (x.email = "a@x.com")).length + 1 =
      (((⟨[⟨1, "a@x.com", "Ada", "L", some "hashed_pw", none, none, false, 0, 0⟩],
          [⟨1, "a@x.com", "123456", 100, 0⟩], 2, 2⟩ : Store)).codes.filter fun x =>
        decide (x.email = "a@x.com")).length :=
  consume_success "a@x.com" "123456" 50 _ _ (by decide) (by decide) (by decide) (by decide)

/-- C3 counterexample: with an unverified account and TWO live rows for
the same email, consuming one returns `Verified` but the email's row count
drops to 1, not 0, refuting the claim's "drops to 0". -/
theorem consume_success_leaves_other_row :
    (verifyEmail "a@x.com" "222222" 50
      ⟨[⟨1, "a@x.com", "Ada", "L", some "hashed_pw", none, none, false, 0, 0⟩],
        [⟨1, "a@x.com", "111111", 100, 0⟩, ⟨2, "a@x.com", "222222", 100, 0⟩], 2, 3⟩).1 =
      ⟨true, emailVerifiedMsg⟩ ∧
    ((verifyEmail "a@x.com" "222222" 50
      ⟨[⟨1, "a@x.com", "Ada", "L", some "hashed_pw", none, none, false, 0, 0⟩],
        [⟨1, "a@x.com", "111111", 100, 0⟩, ⟨2, "a@x.com", "222222", 100, 0⟩], 2, 3⟩).2.codes.filter
          fun x => decide (x.email = "a@x.com")).length = 1 := by
  decide

/-! ## Claim C4 -/

/-- C4: when the first code row matching (email, code) is not expired
(expiry at or after the current time) but no account row has that email,
`verifyEmail` returns `AccountMissing` and changes nothing at all — in
particular the verification row is not deleted and remains available; the
consumed-row deletion happens only after the account update touched a
row. -/
theorem consume_account_missing (email code : String) (now : Nat) (s : Store)
    (r : VerificationRow)
    (hr : (s.codes.filter fun x =>
      decide (x.email = email ∧ x.verification_code = code)).head? = some r)
    (hnotexp : ¬ r.expires_at < now)
    (hnoacc : s.users.filter (fun u => decide (u.email = email)) = []) :
    verifyEmail email code now s = (⟨false, accountMissingMsg⟩, s) := by
  obtain ⟨tail, htail⟩ := List.head?_eq_some_iff.mp hr
  have hmap : (s.users.map fun u =>
      if u.email = email then { u with is_email_verified := true, updated_at := now }
      else u) = s.users := by
    have h1 : ∀ u ∈ s.users,
        (if u.email = email then
          ({ u with is_email_verified := true, updated_at := now } : UserRow)
        else u) = id u := by
      intro u hu
      have hne : ¬ (u.email = email) := by
        have := List.filter_eq_nil_iff.mp hnoacc u hu
        simpa using this
      rw [if_neg hne]
      rfl
    rw [List.map_congr_left h1, List.map_id]
  unfold verifyEmail
  rw [htail]
  dsimp only
  rw [if_neg hnotexp, hnoacc]
  rw [List.length_nil, if_pos rfl, hmap]

/-- C4 witness: a non-expired row for an email with no account row. -/
theorem consume_account_missing_witness :
    verifyEmail "a@x.com" "123456" 50 ⟨[], [⟨1, "a@x.com", "123456", 100, 0⟩], 1, 2⟩ =
      (⟨false, accountMissingMsg⟩, ⟨[], [⟨1, "a@x.com", "123456", 100, 0⟩], 1, 2⟩) :=
  consume_account_missing "a@x.com" "123456" 50 _ ⟨1, "a@x.com", "123456", 100, 0⟩
    (by decide) (by decide) (by decide)

/-! ## Claim C5 -/

/-- C5 (amended): when the first code row matching (email, code) has
expiry strictly BEFORE the current time, `verifyEmail` deletes that row
(lazy cleanup), returns `Expired`, and leaves every account unchanged.
The original claim's "at or before" is wrong at the boundary: the code's
expiry test is `expires_at < now`, so a row whose expiry equals the
current time is treated as still valid (see the counterexample). -/
theorem consume_expired (email code : String) (now : Nat) (s : Store)
    (r : VerificationRow)
    (hr : (s.codes.filter fun x =>
      decide (x.email = email ∧ x.verification_code = code)).head? = some r)
    (hexp : r.expires_at < now) :
    verifyEmail email code now s =
      (⟨false, expiredCodeMsg⟩,
        { s with codes := s.codes.filter fun x => !decide (x.id = r.id) }) ∧
    r ∉ (verifyEmail email code now s).2.codes := by
  obtain ⟨tail, htail⟩ := List.head?_eq_some_iff.mp hr
  have hmain : verifyEmail email code now s =
      (⟨false, expiredCodeMsg⟩,
        { s with codes := s.codes.filter fun x => !decide (x.id = r.id) }) := by
    unfold verifyEmail
    rw [htail]
    dsimp only
    rw [if_pos hexp]
  refine ⟨hmain, ?_⟩
  rw [hmain]
  intro hmem
  have := (List.mem_filter.mp hmem).2
  simp at this

/-- C5 witness: a strictly expired row is deleted with `Expired` and the
account table is untouched. -/
theorem consume_expired_witness :
    verifyEmail "a@x.com" "123456" 200
      ⟨[⟨1, "a@x.com", "Ada", "L", some "hashed_pw", none, none, false, 0, 0⟩],
        [⟨1, "a@x.com", "123456", 100, 0⟩], 2, 2⟩ =
      (⟨false, expiredCodeMsg⟩,
        { (⟨[⟨1, "a@x.com", "Ada", "L", some "hashed_pw", none, none, false, 0, 0⟩],
            [⟨1, "a@x.com", "123456", 100, 0⟩], 2, 2⟩ : Store) with
            codes := (⟨[⟨1, "a@x.com", "Ada", "L", some "hashed_pw", none, none, false, 0, 0⟩],
              [⟨1, "a@x.com", "123456", 100, 0⟩], 2, 2⟩ : Store).codes.filter fun x =>
                !decide (x.id = (⟨1, "a@x.com", "123456", 100, 0⟩ : VerificationRow).id) }) ∧
    (⟨1, "a@x.com", "123456", 100, 0⟩ : VerificationRow) ∉
      (verifyEmail "a@x.com" "123456" 200
        ⟨[⟨1, "a@x.com", "Ada", "L", some "hashed_pw", none, none, false, 0, 0⟩],
          [⟨1, "a@x.com", "123456", 100, 0⟩], 2, 2⟩).2.codes :=
  consume_expired "a@x.com" "123456" 200 _ _ (by decide) (by decide)

/-- C5 counterexample: a row whose expiry EQUALS the current time is not
treated as expired — with a matching account present, `verifyEmail`
returns `Verified` (success) and marks the account verified, where the
claim predicts `Expired` with the account left unverified. -/
theorem consume_at_expiry_succeeds :
    (verifyEmail "a@x.com" "123456" 50
      ⟨[⟨1, "a@x.com", "Ada", "L", some "hashed_pw", none, none, false, 0, 0⟩],
        [⟨1, "a@x.com", "123456", 50, 0⟩], 2, 2⟩).1 = ⟨true, emailVerifiedMsg⟩ ∧
    ((verifyEmail "a@x.com" "123456" 50
      ⟨[⟨1, "a@x.com", "Ada", "L", some "hashed_pw", none, none, false, 0, 0⟩],
        [⟨1, "a@x.com", "123456", 50, 0⟩], 2, 2⟩).2.users.map (·.is_email_verified)) =
      [true] := by
  decide

/-! ## Claim C6 -/

/-- C6: when no code row matches both the email and the exact code string
(string comparison, leading zeros significant), `verifyEmail` returns
`InvalidCode` and mutates nothing: the store is returned unchanged. -/
theorem consume_invalid (email code : String) (now : Nat) (s : Store)
    (h : s.codes.filter (fun x =>
      decide (x.email = email ∧ x.verification_code = code)) = []) :
    verifyEmail email code now s = (⟨false, invalidCodeMsg⟩, s) := by
  unfold verifyEmail
  rw [h]

/-- C6 witness: a wrong code (here differing from the stored one only in
a leading zero) matches nothing and nothing changes. -/
theorem consume_invalid_witness :
    verifyEmail "a@x.com" "012345" 50
      ⟨[⟨1, "a@x.com", "Ada", "L", some "hashed_pw", none, none, false, 0, 0⟩],
        [⟨1, "a@x.com", "123456", 100, 0⟩], 2, 2⟩ =
      (⟨false, invalidCodeMsg⟩,
        ⟨[⟨1, "a@x.com", "Ada", "L", some "hashed_pw", none, none, false, 0, 0⟩],
          [⟨1, "a@x.com", "123456", 100, 0⟩], 2, 2⟩) :=
  consume_invalid "a@x.com" "012345" 50 _ (by decide)

/-! ## Claim C7 -/

/-- C7 (amended): once an account's `is_email_verified` flag is true it
stays true under every sequence of `registerUser`, `sendVerificationCode`,
`verifyEmail`, `checkEmailAvailability` and `googleSignIn` calls whose
asserted `email_verified` flag does not resolve to `false`.  The
restriction is necessary: `googleSignIn` overwrites the flag with the
asserted value, so asserting `false` un-verifies an existing verified
account (see the counterexample). -/
theorem verified_flag_monotone (tr : List (Op × Nat)) (s : Store)
    (hops : ∀ p ∈ tr, opKeepsVerified p.1 = true) (i : Nat)
    (h : userVerified s i) : userVerified (runTrace s tr) i :=
  runTrace_verified_mono tr s hops i h

/-- C7 witness: a verified account stays verified across a Google
re-sign-in (default flag), a code consumption attempt and an availability
check. -/
theorem verified_flag_monotone_witness :
    userVerified
      (runTrace
        ⟨[⟨1, "a@x.com", "Ada", "L", some "hashed_pw", none, none, true, 0, 0⟩], [], 2, 1⟩
        [(Op.googleOp ⟨"gid9", "a@x.com", "Ada", "L", none⟩, 4),
         (Op.verifyOp "a@x.com" "123456", 6),
         (Op.checkAvailOp "a@x.com" 2025, 8)]) 1 :=
  verified_flag_monotone _ _ (by decide) 1 (by unfold userVerified; decide)

/-- C7 counterexample: `googleSignIn` with asserted `email_verified =
false` on an existing verified account resets the flag to false — the
verified flag is not monotone over unrestricted operation sequences. -/
theorem google_sign_in_unverifies :
    ((⟨[⟨1, "a@x.com", "Ada", "L", some "hashed_pw", none, none, true, 0, 0⟩],
        [], 2, 1⟩ : Store).users.map (·.is_email_verified)) = [true] ∧
    ((googleSignIn ⟨"gid9", "a@x.com", "Ada", "L", some false⟩ 10
        ⟨[⟨1, "a@x.com", "Ada", "L", some "hashed_pw", none, none, true, 0, 0⟩],
          [], 2, 1⟩).2.users.map (·.is_email_verified)) = [false] := by
  decide

/-! ## Claim C8 -/

/-- Splitting a string of the shape `local@domain` (no other `@`)
recovers the two parts. -/
theorem jsSplit_append (l d : String)
    (hl : ∀ c ∈ l.data, c ≠ '@') (hd : ∀ c ∈ d.data, c ≠ '@') :
    jsSplit '@' (l ++ "@" ++ d) = [l, d] := by
  have h1 : (l ++ "@" ++ d).data = l.data ++ '@' :: d.data := by
    rw [String.data_append, String.data_append]
    simp
  unfold jsSplit
  rw [h1, jsSplitAux_sep d.data [] hl, jsSplitAux_no_sep [] hd]
  simp

/-- C8: `checkEmailAvailability` answers `available` exactly when no
account row has the email; otherwise it returns `available = false`
together with the five deterministic suggestions built from the email's
local part, its domain and the current calendar year, in the spec's
order. -/
theorem check_email_availability_ok (email : String) (year : Nat) (s : Store)
    (l d : String) (hsplit : email = l ++ "@" ++ d)
    (hl : ∀ c ∈ l.data, c ≠ '@') (hd : ∀ c ∈ d.data, c ≠ '@') :
    (s.users.filter (fun u => decide (u.email = email)) = [] →
      checkEmailAvailability email year s = ⟨true, none⟩) ∧
    (s.users.filter (fun u => decide (u.email = email)) ≠ [] →
      checkEmailAvailability email year s =
        ⟨false, some
          [l ++ "." ++ decToString year ++ "@" ++ d,
           l ++ "_" ++ decToString year ++ "@" ++ d,
           l ++ ".user@" ++ d,
           l ++ "123@" ++ d,
           l ++ "_official@" ++ d]⟩) := by
  have hjs : jsSplit '@' email = [l, d] := by
    rw [hsplit]
    exact jsSplit_append l d hl hd
  constructor
  · intro hnone
    simp only [checkEmailAvailability]
    rw [hnone]
    rfl
  · intro hsome
    have hpos : (s.users.filter (fun u => decide (u.email = email))).length > 0 :=
      List.length_pos.mpr hsome
    simp only [checkEmailAvailability]
    rw [if_pos hpos, hjs]
    rfl

/-- C8 witness: the spec's scenario — `taken@domain.com` is taken, year
2025 — yields exactly the five documented suggestions; the same email on
the empty store is available. -/
theorem check_email_availability_witness :
    ((Store.empty).users.filter
        (fun u => decide (u.email = "taken@domain.com")) = [] →
      checkEmailAvailability "taken@domain.com" 2025 Store.empty = ⟨true, none⟩) ∧
    ((Store.empty).users.filter
        (fun u => decide (u.email = "taken@domain.com")) ≠ [] →
      checkEmailAvailability "taken@domain.com" 2025 Store.empty =
        ⟨false, some
          ["taken" ++ "." ++ decToString 2025 ++ "@" ++ "domain.com",
           "taken" ++ "_" ++ decToString 2025 ++ "@" ++ "domain.com",
           "taken" ++ ".user@" ++ "domain.com",
           "taken" ++ "123@" ++ "domain.com",
           "taken" ++ "_official@" ++ "domain.com"]⟩) :=
  check_email_availability_ok "taken@domain.com" 2025 Store.empty
    "taken" "domain.com" (by rfl) (by decide) (by decide)

/-! ## Claim C9 -/

/-- C9 (amended): every generated verification code is the decimal string
of an integer in [100000, 999999] — a 6-character string with a nonzero
leading digit — and conversely every such value is produced by some
random input, so the generator is uniform over these 900000 values rather
than over all 10^6 six-digit strings. -/
theorem genCode_range :
    (∀ rand : Nat, ∃ n, 100000 ≤ n ∧ n ≤ 999999 ∧ genCode rand = decToString n ∧
      (genCode rand).length = 6) ∧
    (∀ n, 100000 ≤ n → n ≤ 999999 → ∃ rand, rand < 900000 ∧
      genCode rand = decToString n) := by
  constructor
  · intro rand
    have hmod : rand % 900000 < 900000 := Nat.mod_lt rand (by omega)
    refine ⟨100000 + rand % 900000, by omega, by omega, rfl, ?_⟩
    have hlo : 10 ^ 5 ≤ 100000 + rand % 900000 := by norm_num
    have hhi : 100000 + rand % 900000 < 10 ^ (5 + 1) := by
      have : (10 : Nat) ^ (5 + 1) = 1000000 := by norm_num
      omega
    have := decToString_length hlo hhi
    unfold genCode
    omega
  · intro n h1 h2
    refine ⟨n - 100000, by omega, ?_⟩
    unfold genCode
    have harg : 100000 + (n - 100000) % 900000 = n := by
      have : (n - 100000) % 900000 = n - 100000 := Nat.mod_eq_of_lt (by omega)
      omega
    rw [harg]

/-- C9 witness: the bounds applied at a concrete random input and the
reachability of a concrete value. -/
theorem genCode_range_witness :
    (∃ n, 100000 ≤ n ∧ n ≤ 999999 ∧ genCode 7 = decToString n ∧
      (genCode 7).length = 6) ∧
    ∃ rand, rand < 900000 ∧ genCode rand = decToString 123456 :=
  ⟨genCode_range.1 7, genCode_range.2 123456 (by decide) (by decide)⟩

/-- C9 counterexample: the claim says every 6-digit string, including
those with leading zeros, is producible; in fact no random input yields
the string 000000 (the generated value is always at least 100000). -/
theorem genCode_never_all_zeros : ¬ ∃ rand : Nat, genCode rand = "000000" := by
  rintro ⟨rand, hr⟩
  unfold genCode at hr
  have hpos : 0 < 100000 + rand % 900000 := by omega
  exact decToString_head_ne_zero hpos (by rw [hr]; decide)

/-! ## Claim C10 -/

/-- C10: boundary gap at exact expiry.  When a code row for the email has
`expires_at` exactly equal to the current time (no verified account for
the email, no strictly live row), `sendVerificationCode` neither deletes
that row (the sweep removes only `expires_at < now`) nor counts it as
pending (the live check requires `now < expires_at`): it succeeds and
inserts a new row, leaving both the at-expiry row and the new row in the
store for that email. -/
theorem send_at_expiry_boundary (email : String) (rand now : Nat) (s : Store)
    (r : VerificationRow) (hmem : r ∈ s.codes) (hemail : r.email = email)
    (hexp : r.expires_at = now)
    (husers : ∀ u ∈ s.users, u.email = email → u.is_email_verified = false)
    (hnolive : ∀ x ∈ s.codes, x.email = email → ¬ now < x.expires_at) :
    (sendVerificationCode email rand now s).1 = ⟨true, codeSentMsg⟩ ∧
    r ∈ (sendVerificationCode email rand now s).2.codes ∧
    (⟨s.nextCodeId, email, genCode rand, now + 15 * 60 * 1000, now⟩ : VerificationRow) ∈
      (sendVerificationCode email rand now s).2.codes := by
  have hcond1 : (((s.users.filter fun u => decide (u.email = email)).head?).map
      (·.is_email_verified)).getD false = false := by
    cases hf : (s.users.filter fun u => decide (u.email = email)).head? with
    | none => rfl
    | some u =>
      have hu := List.mem_filter.mp (List.mem_of_mem_head? (Option.mem_def.mpr hf))
      have hv : u.is_email_verified = false := husers u hu.1 (by simpa using hu.2)
      simp [hv]
  have hcond2 : ((s.codes.filter fun x =>
      !decide (x.email = email ∧ x.expires_at < now)).filter fun x =>
        decide (x.email = email ∧ now < x.expires_at)).length = 0 := by
    rw [List.length_eq_zero, List.filter_eq_nil_iff]
    intro x hx
    have hx' := (List.mem_filter.mp hx).1
    simp only [decide_eq_true_eq, not_and]
    intro hxe
    exact hnolive x hx' hxe
  simp only [sendVerificationCode]
  rw [if_neg (show ¬ _ = true by rw [hcond1]; decide)]
  rw [if_neg (show ¬ _ > 0 by rw [hcond2]; decide)]
  refine ⟨rfl, ?_, ?_⟩
  · refine List.mem_append_left _ (List.mem_filter.mpr ⟨hmem, ?_⟩)
    have hne : ¬ r.expires_at < now := by omega
    simp [hne]
  · exact List.mem_append_right _ (List.mem_singleton_self _)

/-- C10 witness: a store holding exactly one row for the email, expiring
exactly now — reissuing succeeds and both rows are present afterwards. -/
theorem send_at_expiry_boundary_witness :
    (sendVerificationCode "a@x.com" 0 50 ⟨[], [⟨1, "a@x.com", "111111", 50, 0⟩], 1, 2⟩).1 =
      ⟨true, codeSentMsg⟩ ∧
    (⟨1, "a@x.com", "111111", 50, 0⟩ : VerificationRow) ∈
      (sendVerificationCode "a@x.com" 0 50 ⟨[], [⟨1, "a@x.com", "111111", 50, 0⟩], 1, 2⟩).2.codes ∧
    (⟨2, "a@x.com", genCode 0, 50 + 15 * 60 * 1000, 50⟩ : VerificationRow) ∈
      (sendVerificationCode "a@x.com" 0 50 ⟨[], [⟨1, "a@x.com", "111111", 50, 0⟩], 1, 2⟩).2.codes :=
  send_at_expiry_boundary "a@x.com" 0 50 _ _ (by decide) (by decide) (by decide)
    (by decide) (by decide)
